import Mathlib

set_option maxRecDepth 8000

/-!
Verification of the Iterative Atlas Removal (IAR) pipeline of
`segmentation/cardiac/cardiac.py`.

The numeric kernel of the code (numpy/scipy array operations on flattened
angular grids) is embedded over `ℚ`: grids become flattened `List ℚ` values
and `axis=0` (cell-wise) operations act through `List.transpose`.  External
collaborators (SimpleITK geometry, `scipy.optimize.curve_fit`, the Gaussian
smoothing filter and the irrational `np.std` square root) are abstracted as
function parameters; everything the verified claims depend on is translated
from the source.  Note that division by zero yields `0` in `ℚ`, whereas IEEE
floating point yields `inf`/`nan`; theorems about degenerate cases therefore
speak about the divisor itself being zero.
-/

/-- The value `np.mean l`: sum divided by length (the model returns 0 on an
empty list, where numpy would warn and produce `nan`). -/
def npMean (l : List ℚ) : ℚ := l.sum / l.length

/-- Ascending sort, as `np.sort` (axis-free, 1-D). -/
def npSort (l : List ℚ) : List ℚ := l.insertionSort (· ≤ ·)

/-- The value `np.median l`: middle element of the sorted list for odd length,
average of the two middle elements for even length (0 on the empty list,
where numpy would warn and produce `nan`). -/
def npMedian (l : List ℚ) : ℚ :=
  if l.length % 2 = 1 then (npSort l).getD (l.length / 2) 0
  else ((npSort l).getD (l.length / 2 - 1) 0 + (npSort l).getD (l.length / 2) 0) / 2

/-- Function `medianAbsoluteDeviation` (cardiac.py line 220), applied to the
values of a single grid cell across the reference atlases:
`np.median(np.abs(data - np.median(data)))`. -/
def medianAbsoluteDeviation (data : List ℚ) : ℚ :=
  npMedian (data.map fun x => |x - npMedian data|)

/-- Cell-wise (`axis=0`) statistic across a list of equally sized flattened
grids: `List.transpose` turns the list of grids into the per-cell lists of
values. -/
def cellwise (f : List ℚ → ℚ) (refs : List (List ℚ)) : List ℚ :=
  refs.transpose.map f

/-- Line 316: `gValMedian = np.median(gValListTest, axis=0)`. -/
def gValMedian (refs : List (List ℚ)) : List ℚ := cellwise npMedian refs

/-- Line 317: `gValMAD = 1.4826 * medianAbsoluteDeviation(gValListTest, axis=0)`. -/
def gValMAD (refs : List (List ℚ)) : List ℚ :=
  cellwise (fun col => 14826 / 10000 * medianAbsoluteDeviation col) refs

/-- The value `np.var` of one cell's values.  The code's `np.std` (line 307)
is the square root of this, which is irrational in general; the development
tracks the variance instead, using that the std of a cell is zero iff its
variance is zero. -/
def npVar (l : List ℚ) : ℚ := npMean (l.map fun x => (x - npMean l) ^ 2)

/-- Cell-wise variance across the leave-one-out reference grids (the square
of line 307's `gValStd = np.std(gValListTest, axis=0)`). -/
def gValVar (refs : List (List ℚ)) : List ℚ := cellwise npVar refs

/-- Lines 323–325: `gValMAD[gValMAD==0] = np.median(gValMAD)`.  The
right-hand side is evaluated once on the unmodified dispersion grid (zeros
included) and then written into every zero cell. -/
def madZeroGuard (g : List ℚ) : List ℚ :=
  g.map fun d => if d = 0 then npMedian g else d

/-- Lines 309–311: `gValStd[gValStd==0] = gValStd.mean()`.  The mean is
taken over the whole unmodified dispersion grid (zeros included) and then
written into every zero cell. -/
def stdZeroGuard (g : List ℚ) : List ℚ :=
  g.map fun d => if d = 0 then npMean g else d

/-- A three-list `zipWith`, for cell-wise Z-scoring. -/
def zip3With (f : α → β → γ → δ) : List α → List β → List γ → List δ
  | a :: as, b :: bs, c :: cs => f a b c :: zip3With f as bs cs
  | _, _, _ => []

/-- Lines 315–327: the MAD-branch Z-score field
`(gVals - gValMedian) / gValMAD` after the zero guard. -/
def zScoreMAD (gVals : List ℚ) (refs : List (List ℚ)) : List ℚ :=
  zip3With (fun x m s => (x - m) / s) gVals (gValMedian refs) (madZeroGuard (gValMAD refs))

/-- Lines 296–302: inputs of the per-atlas scoring step.  For the atlas at
index `i` of the per-iteration grid list `gValList`, the code first copies
the list and pops index `i` (the leave-one-out reference set), then — only
if `smoothMaps` is set — replaces the local `gVals` by a smoothed copy.
`smoothF` abstracts `scipy.ndimage.filters.gaussian_filter(·, sigma, mode='wrap')`.
The pair returned is (test grid as scored, leave-one-out reference list). -/
def scoreInputs (smoothMaps : Bool) (smoothF : List ℚ → List ℚ)
    (gValList : List (List ℚ)) (i : ℕ) : List ℚ × List (List ℚ) :=
  let gValListTest := gValList.eraseIdx i
  let gVals := gValList.getD i []
  (if smoothMaps then smoothF gVals else gVals, gValListTest)

/-- Lines 259–266: grid resolution (degrees) chosen from the size of the
remaining atlas pool.  Translated with the branches in source order:
`if len < 12: 3 elif len < 7: 6 else: 1`. -/
def iarResolution (n : ℕ) : ℕ :=
  if n < 12 then 3 else if n < 7 then 6 else 1

/-- The spec's description of the zero-dispersion substitute for the MAD
branch.  Modelled from the spec: "substitute the median of all nonzero
dispersions grid-wide"; kept separate from the source translation
`madZeroGuard` so the two can be compared. -/
def specNonzeroMedian (g : List ℚ) : ℚ := npMedian (g.filter fun d => d ≠ 0)

/-- Line 346: `bins = np.linspace(-15, 15, 501)`, the 501 histogram bin
edges. -/
def binEdges : List ℚ := (List.range 501).map fun (i : ℕ) => -15 + 30 * (i : ℚ) / 500

/-- Line 348: `bin_centers = (bin_edges[1:] + bin_edges[:-1]) / 2.0`, the
500 bin centres (`zipWith` truncates at the shorter list, so pairing the
tail with the full edge list yields exactly the 500 midpoints). -/
def binCenters : List ℚ :=
  List.zipWith (fun a b => (a + b) / 2) binEdges.tail binEdges

/-- Function `np.trapz(y, x)`: trapezoidal integration of samples `y`
against abscissae `x` (line 355). -/
def npTrapz : List ℚ → List ℚ → ℚ
  | y1 :: y2 :: ys, x1 :: x2 :: xs => (x2 - x1) * (y1 + y2) / 2 + npTrapz (y2 :: ys) (x2 :: xs)
  | _, _ => 0

/-- Lines 352–355: the Q-metric.  `zDensity` is the empirical Z-score
density histogram and `zIdeal` the fitted Gaussian density sampled at the
bin centres (`curve_fit` and the Gaussian pdf are external numerics, so the
two density vectors are taken as inputs); the integrand is
`np.abs(zDensity - zIdeal) * np.abs(bin_centers)**2`. -/
def Q_value (zDensity zIdeal : List ℚ) : ℚ :=
  npTrapz (zip3With (fun d g c => |d - g| * |c| ^ 2) zDensity zIdeal binCenters) binCenters

/-- The value `arr.max()` used by the normalisation (line 416); numpy's max
of the flattened field (the model returns the head default on an empty
field, where numpy would raise). -/
def npMax (l : List ℚ) : ℚ := l.foldr max (l.headD 0)

/-- Line 416: `probabilityImage / sitk.GetArrayFromImage(probabilityImage).max()`.
In `ℚ` a division by a zero maximum yields 0; for an all-zero input ITK maps
the quotient to the numeric maximum instead, which the subsequent
`BinaryThreshold` (inside range `[threshold, 255]`) also sends to 0, so the
model and the library agree on the binarised outcome. -/
def normalizeProbability (img : List ℚ) : List ℚ := img.map (· / npMax img)

/-- Line 419: `sitk.BinaryThreshold(probabilityImage, lowerThreshold=threshold)`
with SimpleITK defaults `upperThreshold=255`, `insideValue=1`, `outsideValue=0`. -/
def binaryThreshold (lower : ℚ) (img : List ℚ) : List ℕ :=
  img.map fun v => if lower ≤ v ∧ v ≤ 255 then 1 else 0

/-- Line 422: `sitk.BinaryFillhole`, instantiated in one dimension: a
background voxel becomes foreground iff it is enclosed by foreground on
both sides (i.e. it is not connected to the image border through
background). -/
def binaryFillhole (b : List ℕ) : List ℕ :=
  (List.range b.length).map fun j =>
    if b.getD j 0 = 1 then 1
    else if 1 ∈ b.take j ∧ 1 ∈ b.drop (j + 1) then 1 else 0

/-- Helper for the 1-D connected-component labelling: walks the image,
assigning label `k+1` to a new run of foreground voxels and 0 to
background. -/
def labelRuns : List ℕ → ℕ → Bool → List ℕ
  | [], _, _ => []
  | v :: rest, k, inRun =>
    if v = 1 then (if inRun then k else k + 1) :: labelRuns rest (if inRun then k else k + 1) true
    else 0 :: labelRuns rest k false

/-- Line 425: `sitk.ConnectedComponent`, instantiated in one dimension:
maximal runs of foreground voxels receive the labels 1, 2, …. -/
def connectedComponent1d (b : List ℕ) : List ℕ := labelRuns b 0 false

/-- Lines 409–439: `processProbabilityImage`, instantiated on 1-D fields
(the degenerate-input control flow under verification is dimension
independent).  Normalise by the maximum, binarise, fill holes, label
connected components, count voxels per label; if there are no components,
return the binary image unchanged, otherwise keep the largest component
(`np.argmax` picks the first index of the maximal count). -/
def processProbabilityImage (img : List ℚ) (threshold : ℚ) : List ℕ :=
  let binaryImage := binaryFillhole (binaryThreshold threshold (normalizeProbability img))
  let labelled := connectedComponent1d binaryImage
  let labelIndices := (List.range (labelled.foldr max 0)).map (· + 1)
  let voxelCounts := labelIndices.map fun i => labelled.count i
  if voxelCounts = [] then binaryImage
  else
    let largestComponentLabel := labelIndices.getD (voxelCounts.indexOf (voxelCounts.foldr max 0)) 0
    labelled.map fun l => if l = largestComponentLabel then 1 else 0

/-- Python's `str.lower()`. -/
def pyLower (s : String) : String := ⟨s.data.map Char.toLower⟩

/-- Lines 305/315/329–332: the per-atlas scoring loop accepts only
`zScore.lower()` equal to `'std'` or `'mad'`; anything else prints an error
and calls `sys.exit()`. -/
def zScoreValid (zScore : String) : Bool :=
  pyLower zScore == "std" || pyLower zScore == "mad"

/-- Lines 363–370: the outlier-method dispatch accepts only
`outlierMethod.lower()` equal to `'iqr'` or `'std'`; anything else prints
an error and calls `sys.exit()`. -/
def outlierMethodValid (outlierMethod : String) : Bool :=
  pyLower outlierMethod == "iqr" || pyLower outlierMethod == "std"

/-- The value `np.percentile(l, q)` with the default linear interpolation:
for sorted values `s` of length `n`, the percentile sits at fractional
position `q*(n-1)/100`. -/
def npPercentile (l : List ℚ) (q : ℚ) : ℚ :=
  let s := npSort l
  let pos : ℚ := q * ((s.length : ℚ) - 1) / 100
  let i : ℕ := (⌊pos⌋).toNat
  s.getD i 0 + (pos - (⌊pos⌋ : ℚ)) * (s.getD (i + 1) 0 - s.getD i 0)

/-- Lines 360–361: `bestResults = np.sort(RL)[:max([minBestAtlases, len(RL)-3])]`.
The python `max` is over signed integers (`len(RL)-3` may be negative), so
the bound is computed in `ℤ` before truncating the sorted score list. -/
def bestResults (minBestAtlases : ℕ) (RL : List ℚ) : List ℚ :=
  (npSort RL).take (max (minBestAtlases : ℤ) ((RL.length : ℤ) - 3)).toNat

/-- Lines 363–366: the outlier threshold.  The IQR rule is
`np.percentile(bestResults, 75) + N_factor * (P75 - P25)`; the std rule is
`np.mean(bestResults) + N_factor * np.std(bestResults)` (where `np.std`
takes an irrational square root and is therefore a function parameter).
The caller dispatches on `outlierMethodValid` first, mirroring the
if/elif/else of the source, so this value is only consulted for the two
recognised method names. -/
def outlierLimit (outlierMethod : String) (N_factor : ℚ) (npStd : List ℚ → ℚ)
    (minBestAtlases : ℕ) (RL : List ℚ) : ℚ :=
  if pyLower outlierMethod = "iqr" then
    npPercentile (bestResults minBestAtlases RL) 75 +
      N_factor * (npPercentile (bestResults minBestAtlases RL) 75 -
        npPercentile (bestResults minBestAtlases RL) 25)
  else
    npMean (bestResults minBestAtlases RL) + N_factor * npStd (bestResults minBestAtlases RL)

/-- Lines 382–389: `keepIdList` collects, in pool order, the atlases whose
Q-value satisfies `result <= outlierLimit`. -/
def iarKeep (Q : α → ℚ) (outlierLimit : ℚ) (pool : List α) : List α :=
  pool.filter fun a => Q a ≤ outlierLimit

/-- A fatal configuration exit (`sys.exit()` after an error message). -/
inductive IARExit where
  | configError : String → IARExit

/-- State of the IAR log file: whether the header row was written, how many
iteration rows were written, and whether the handle is currently open. -/
structure LogState where
  headerWritten : Bool
  iterLines : ℕ
  handleOpen : Bool

/-- The recognised configuration surface of `IAR` that the verified claims
depend on. -/
structure IARConfig where
  zScore : String
  outlierMethod : String
  minBestAtlases : ℕ
  N_factor : ℚ
  singleStep : Bool

/-- Lines 246–253: on entry at iteration 0 the log file is opened (mode
`'w'`, truncating) and the header row `Iteration,Atlases,Qvalue,Threshold`
is written; on a recursive entry the log state is inherited. -/
def iarLogEntry (iteration : ℕ) (log : LogState) : LogState :=
  if iteration = 0 then LogState.mk true 0 true else log

/-- Lines 376–380: one iteration row is written (and flushed). -/
def iarLogWrite (l : LogState) : LogState :=
  LogState.mk l.headerWritten (l.iterLines + 1) l.handleOpen

/-- Line 405: `logFile.close()`. -/
def iarLogClose (l : LogState) : LogState :=
  LogState.mk l.headerWritten l.iterLines false

/-- The outlier threshold of the iteration whose pool is `pool`: Q-values
are collected in pool order (`RL = list(QResults.values())`, line 360) and
fed to the line 363–366 dispatch. -/
def iarLimit [DecidableEq α] (cfg : IARConfig) (score : List α → α → ℚ)
    (npStd : List ℚ → ℚ) (pool : List α) : ℚ :=
  outlierLimit cfg.outlierMethod cfg.N_factor npStd cfg.minBestAtlases (pool.map (score pool))

/-- The surviving atlases of the iteration whose pool is `pool`
(lines 382–389). -/
def iarKeepPool [DecidableEq α] (cfg : IARConfig) (score : List α → α → ℚ)
    (npStd : List ℚ → ℚ) (pool : List α) : List α :=
  iarKeep (score pool) (iarLimit cfg score npStd pool) pool

/-- Lines 244–407: the Iterative Removal Controller.  Atlases are ids of
type `α` (python dict keys, in insertion order); `score` abstracts the
per-iteration geometric pipeline and Q-value computation (consensus,
distance mapping, re-gridding, histogram and `curve_fit` — external
numerics) as a map from the current pool and an atlas to its Q-value;
`npStd` abstracts the irrational `np.std`.  The function returns the final
log state, the list of pools at the top of each executed iteration (the
recursion trace), and either the surviving atlas set or the fatal
configuration exit.  The unknown-`zScore` exit fires inside the scoring
loop (hence only for a nonempty pool) and the unknown-`outlierMethod` exit
fires before the line-376 log write, so neither writes an iteration row;
recursion happens only when `len(keepIdList) < len(remainingIdList)`,
unless `singleStep` returns the filtered pool at once; the handle is
closed only on the terminal no-removal path (line 405) — neither the
`singleStep` early return (line 399) nor a `sys.exit()` closes it. -/
def iarRun [DecidableEq α] (cfg : IARConfig) (score : List α → α → ℚ)
    (npStd : List ℚ → ℚ) (pool : List α) (iteration : ℕ) (log : LogState) :
    LogState × List (List α) × Except IARExit (List α) :=
  if pool ≠ [] ∧ ¬ zScoreValid cfg.zScore then
    (iarLogEntry iteration log, [pool],
      Except.error (IARExit.configError "zScore must be one of: MAD, STD"))
  else if ¬ outlierMethodValid cfg.outlierMethod then
    (iarLogEntry iteration log, [pool],
      Except.error (IARExit.configError "outlierMethod must be one of: IQR, STD"))
  else if h : (iarKeepPool cfg score npStd pool).length < pool.length then
    if cfg.singleStep then
      (iarLogWrite (iarLogEntry iteration log), [pool],
        Except.ok (iarKeepPool cfg score npStd pool))
    else
      ((iarRun cfg score npStd (iarKeepPool cfg score npStd pool) (iteration + 1)
          (iarLogWrite (iarLogEntry iteration log))).1,
        pool :: (iarRun cfg score npStd (iarKeepPool cfg score npStd pool) (iteration + 1)
          (iarLogWrite (iarLogEntry iteration log))).2.1,
        (iarRun cfg score npStd (iarKeepPool cfg score npStd pool) (iteration + 1)
          (iarLogWrite (iarLogEntry iteration log))).2.2)
  else
    (iarLogClose (iarLogWrite (iarLogEntry iteration log)), [pool], Except.ok pool)
termination_by pool.length
decreasing_by exact h

/-- Entry point: line 244 starts at iteration 0 with no log state yet. -/
def IAR [DecidableEq α] (cfg : IARConfig) (score : List α → α → ℚ)
    (npStd : List ℚ → ℚ) (atlasSet : List α) :
    LogState × List (List α) × Except IARExit (List α) :=
  iarRun cfg score npStd atlasSet 0 (LogState.mk false 0 false)

/-- C2: the resolution thresholds.  The claim says pools with fewer than 7
atlases use the 6-degree grid.  In the source the `len < 12` test comes
first, so every pool smaller than 7 is caught by it and gets the 3-degree
grid; the `len < 7` branch (and its "resolution set: 6x6 sqr deg" message)
is unreachable: `iarResolution` never returns 6.  A pool of 5 atlases is a
concrete failing input. -/
theorem iarResolution_lt7_is_3 :
    iarResolution 5 = 3 ∧ ∀ n : ℕ, iarResolution n ≠ 6 := by
  constructor
  · rfl
  · intro n
    unfold iarResolution
    split
    · simp
    · rename_i h
      rw [if_neg]
      · simp
      · omega

/-- C3 as stated is refuted in the MAD branch on the concrete leave-one-out
reference set `[[0,0,0],[0,0,2],[0,0,4]]` (three grids of three cells).  The
cell-wise dispersion grid is `[0, 0, 2.9652]`; cell 0 has dispersion exactly
zero, and the code substitutes `np.median` of the WHOLE dispersion grid,
which is 0, not the median of the nonzero dispersions (2.9652) that the
claim prescribes. -/
theorem madZeroGuard_counterexample :
    gValMAD [[0,0,0],[0,0,2],[0,0,4]] = [0, 0, 14826/5000] ∧
    (madZeroGuard (gValMAD [[0,0,0],[0,0,2],[0,0,4]])).getD 0 0 = 0 ∧
    specNonzeroMedian (gValMAD [[0,0,0],[0,0,2],[0,0,4]]) = 14826/5000 ∧
    (madZeroGuard (gValMAD [[0,0,0],[0,0,2],[0,0,4]])).getD 0 0 ≠
      specNonzeroMedian (gValMAD [[0,0,0],[0,0,2],[0,0,4]]) := by
  have htr : ([[0,0,0],[0,0,2],[0,0,4]] : List (List ℚ)).transpose
      = [[0,0,0],[0,0,0],[0,2,4]] := by rfl
  have hmad : gValMAD [[0,0,0],[0,0,2],[0,0,4]] = [0, 0, 14826/5000] := by
    rw [gValMAD, cellwise, htr]
    norm_num [medianAbsoluteDeviation, npMedian, npSort, List.insertionSort,
      List.orderedInsert, List.getD]
  refine ⟨hmad, ?_, ?_, ?_⟩ <;>
    rw [hmad] <;>
    norm_num [madZeroGuard, npMedian, npSort, List.insertionSort, List.orderedInsert,
      List.getD, specNonzeroMedian, List.filter]

/-- C3 amended: for every grid cell whose dispersion estimate is exactly
zero, the substituted value is the mean (for the std branch) or the median
(for the MAD branch) of ALL dispersion values of the whole grid, zero cells
included (not of the nonzero values only); nonzero cells are unchanged.
The MAD dispersion grid is computed concretely from the leave-one-out
reference set; the std branch is stated for an arbitrary dispersion grid
`g`, since `np.std` itself takes an irrational square root. -/
theorem zeroGuard_substitutes_whole_grid_stat (refs : List (List ℚ)) (g : List ℚ) (j : ℕ)
    (hmad : j < (gValMAD refs).length) (hstd : j < g.length) :
    ((gValMAD refs).getD j 0 = 0 →
      (madZeroGuard (gValMAD refs)).getD j 0 = npMedian (gValMAD refs)) ∧
    ((gValMAD refs).getD j 0 ≠ 0 →
      (madZeroGuard (gValMAD refs)).getD j 0 = (gValMAD refs).getD j 0) ∧
    (g.getD j 0 = 0 → (stdZeroGuard g).getD j 0 = npMean g) ∧
    (g.getD j 0 ≠ 0 → (stdZeroGuard g).getD j 0 = g.getD j 0) := by
  have hmad' : j < (madZeroGuard (gValMAD refs)).length := by
    simpa [madZeroGuard] using hmad
  have hstd' : j < (stdZeroGuard g).length := by
    simpa [stdZeroGuard] using hstd
  rw [List.getD_eq_getElem _ _ hmad, List.getD_eq_getElem _ _ hmad',
    List.getD_eq_getElem _ _ hstd, List.getD_eq_getElem _ _ hstd']
  simp only [madZeroGuard, stdZeroGuard, List.getElem_map]
  refine ⟨fun h => ?_, fun h => ?_, fun h => ?_, fun h => ?_⟩ <;> simp [h]

theorem zeroGuard_substitutes_whole_grid_stat_witness :
    (((gValMAD [[0,0],[0,2]]).getD 0 0 = 0 →
      (madZeroGuard (gValMAD [[0,0],[0,2]])).getD 0 0 = npMedian (gValMAD [[0,0],[0,2]])) ∧
    ((gValMAD [[0,0],[0,2]]).getD 0 0 ≠ 0 →
      (madZeroGuard (gValMAD [[0,0],[0,2]])).getD 0 0 = (gValMAD [[0,0],[0,2]]).getD 0 0) ∧
    (([0,2] : List ℚ).getD 0 0 = 0 →
      (stdZeroGuard [0,2]).getD 0 0 = npMean [0,2]) ∧
    (([0,2] : List ℚ).getD 0 0 ≠ 0 →
      (stdZeroGuard [0,2]).getD 0 0 = ([0,2] : List ℚ).getD 0 0)) :=
  zeroGuard_substitutes_whole_grid_stat [[0,0],[0,2]] [0,2] 0
    (by decide) (by norm_num)

/-- C4: on a leave-one-out reference set whose members are pixel-identical,
the dispersion estimate is zero in every cell, and the zero guard leaves it
zero: the substituted value is the median (MAD branch) or mean (std branch)
of an all-zero grid.  Every Z-score is then a division by zero, which IEEE
floating point maps to `inf`/`nan` (not finite) without raising an error.
The std branch is witnessed through the cell-wise variance, whose vanishing
is equivalent to the vanishing of `np.std`. -/
theorem dispersion_guard_zero_on_identical_refs :
    gValMAD [[1,1],[1,1]] = [0, 0] ∧
    madZeroGuard (gValMAD [[1,1],[1,1]]) = [0, 0] ∧
    gValVar [[1,1],[1,1]] = [0, 0] ∧
    stdZeroGuard [0, 0] = [0, 0] ∧
    gValMedian [[1,1],[1,1]] = [1, 1] := by
  have htr : ([[1,1],[1,1]] : List (List ℚ)).transpose = [[1,1],[1,1]] := by rfl
  have hmad : gValMAD [[1,1],[1,1]] = [0, 0] := by
    rw [gValMAD, cellwise, htr]
    norm_num [medianAbsoluteDeviation, npMedian, npSort, List.insertionSort,
      List.orderedInsert, List.getD]
  refine ⟨hmad, ?_, ?_, ?_, ?_⟩
  · rw [hmad]
    norm_num [madZeroGuard, npMedian, npSort, List.insertionSort, List.orderedInsert, List.getD]
  · rw [gValVar, cellwise, htr]
    norm_num [npVar, npMean]
  · norm_num [stdZeroGuard, npMean]
  · rw [gValMedian, cellwise, htr]
    norm_num [npMedian, npSort, List.insertionSort, List.orderedInsert, List.getD]

theorem eraseIdx_set_same (l : List α) (i : ℕ) (x : α) :
    (l.set i x).eraseIdx i = l.eraseIdx i := by
  induction l generalizing i with
  | nil => rfl
  | cons a t ih =>
    cases i with
    | zero => rfl
    | succ n => simp only [List.set, List.eraseIdx, List.cons.injEq, true_and]; exact ih n

theorem getD_set_same (l : List α) (i : ℕ) (x : α) (d : α) (h : i < l.length) :
    (l.set i x).getD i d = x := by
  induction l generalizing i with
  | nil => simp at h
  | cons a t ih =>
    cases i with
    | zero => rfl
    | succ n =>
      simp only [List.set, List.getD, List.get?]
      exact ih n (by simpa using h)

/-- C10: smoothing only touches the grid of the atlas being scored.  On the
per-iteration grid list `gValList`, the leave-one-out reference list handed
to the location/dispersion statistics for atlas `i` is always
`gValList.eraseIdx i` built from the UNSMOOTHED grids (first conjunct), and
running the scoring step with `smoothMaps` enabled is the same as running
it with smoothing disabled on a pool in which only entry `i` was replaced
by its smoothed copy (second conjunct) — so the reference statistics are a
frame the smoothing option cannot reach, for every atlas and iteration. -/
theorem smoothing_only_affects_test_grid (smoothF : List ℚ → List ℚ)
    (gValList : List (List ℚ)) (i : ℕ) (hi : i < gValList.length) :
    (scoreInputs true smoothF gValList i).2 = gValList.eraseIdx i ∧
    scoreInputs true smoothF gValList i =
      scoreInputs false smoothF (gValList.set i (smoothF (gValList.getD i []))) i := by
  refine ⟨rfl, ?_⟩
  simp only [scoreInputs, if_pos, if_neg, Bool.false_eq_true, not_false_iff, ite_true, ite_false]
  rw [eraseIdx_set_same, getD_set_same _ _ _ _ hi]

theorem smoothing_only_affects_test_grid_witness :
    (scoreInputs true (List.map (· + 1)) [[1, 2], [3, 4]] 0).2 = [[3, 4]] ∧
    scoreInputs true (List.map (· + 1)) [[1, 2], [3, 4]] 0 =
      scoreInputs false (List.map (· + 1))
        ([[1, 2], [3, 4]].set 0 (List.map (· + 1) ([[1, 2], [3, 4]].getD 0 []))) 0 := by
  have h := smoothing_only_affects_test_grid (List.map (· + 1)) [[1, 2], [3, 4]] 0 (by decide)
  simpa using h

theorem binEdges_length : binEdges.length = 501 := by
  rw [binEdges, List.length_map, List.length_range]

theorem binEdges_getElem (i : ℕ) (h : i < binEdges.length) :
    binEdges[i] = -15 + 30 * (i : ℚ) / 500 := by
  simp only [binEdges, List.getElem_map, List.getElem_range]

theorem binCenters_length : binCenters.length = 500 := by
  rw [binCenters, List.length_zipWith, List.length_tail, binEdges_length]
  omega

theorem binCenters_getElem (i : ℕ) (h : i < binCenters.length) :
    binCenters[i] = ((-15 + 30 * ((i : ℚ) + 1) / 500) + (-15 + 30 * (i : ℚ) / 500)) / 2 := by
  have h' : i < 500 := by rw [binCenters_length] at h; exact h
  have h2 : i + 1 < binEdges.length := by rw [binEdges_length]; omega
  rw [List.getElem_of_eq (show binCenters =
      List.zipWith (fun a b => (a + b) / 2) binEdges.tail binEdges from rfl) h]
  rw [List.getElem_zipWith, List.getElem_tail, binEdges_getElem _ h2, binEdges_getElem]
  push_cast
  ring

theorem npTrapz_nil_left (x : List ℚ) : npTrapz [] x = 0 := rfl

theorem npTrapz_single_left (y1 : ℚ) (x : List ℚ) : npTrapz [y1] x = 0 := rfl

theorem npTrapz_nil_right (y1 y2 : ℚ) (ys : List ℚ) : npTrapz (y1 :: y2 :: ys) [] = 0 := rfl

theorem npTrapz_single_right (y1 y2 : ℚ) (ys : List ℚ) (x1 : ℚ) :
    npTrapz (y1 :: y2 :: ys) [x1] = 0 := rfl

theorem npTrapz_nonneg (y : List ℚ) : ∀ x : List ℚ, (∀ v ∈ y, 0 ≤ v) →
    List.Chain' (· ≤ ·) x → 0 ≤ npTrapz y x := by
  induction y with
  | nil => intro x _ _; rw [npTrapz_nil_left]
  | cons y1 ys ih =>
    intro x hy hx
    match ys, x with
    | [], _ => rw [npTrapz_single_left]
    | y2 :: ys', [] => rw [npTrapz_nil_right]
    | y2 :: ys', [x1] => rw [npTrapz_single_right]
    | y2 :: ys', x1 :: x2 :: xs =>
      rw [npTrapz]
      have hx12 : x1 ≤ x2 := (List.chain'_cons.mp hx).1
      have h1 : 0 ≤ y1 := hy y1 (by simp)
      have h2 : 0 ≤ y2 := hy y2 (by simp)
      have hrec : 0 ≤ npTrapz (y2 :: ys') (x2 :: xs) := by
        refine ih (x2 :: xs) (fun v hv => hy v ?_) (List.chain'_cons.mp hx).2
        exact List.mem_cons_of_mem _ hv
      have hterm : 0 ≤ (x2 - x1) * (y1 + y2) / 2 :=
        div_nonneg (mul_nonneg (by linarith) (by linarith)) (by norm_num)
      linarith

theorem zip3With_mem (f : α → β → γ → δ) :
    ∀ (as : List α) (bs : List β) (cs : List γ) (v : δ), v ∈ zip3With f as bs cs →
      ∃ a b c, v = f a b c := by
  intro as
  induction as with
  | nil =>
    intro bs cs v hv
    rw [show zip3With f [] bs cs = [] from rfl] at hv
    exact absurd hv (List.not_mem_nil v)
  | cons a as' ih =>
    intro bs cs v hv
    match bs, cs with
    | [], cs2 =>
      rw [show zip3With f (a :: as') [] cs2 = [] from rfl] at hv
      exact absurd hv (List.not_mem_nil v)
    | b :: bs', [] =>
      rw [show zip3With f (a :: as') (b :: bs') [] = [] from rfl] at hv
      exact absurd hv (List.not_mem_nil v)
    | b :: bs', c :: cs' =>
      rw [zip3With] at hv
      rcases List.mem_cons.mp hv with h | h
      · exact ⟨a, b, c, h⟩
      · exact ih bs' cs' v h

theorem binCenters_chain : List.Chain' (· < ·) binCenters := by
  rw [List.chain'_iff_get]
  intro i hi
  have hi' : i < 500 - 1 := by rw [binCenters_length] at hi; exact hi
  have h1 : i < binCenters.length := by rw [binCenters_length]; omega
  have h2 : i + 1 < binCenters.length := by rw [binCenters_length]; omega
  rw [List.get_eq_getElem, List.get_eq_getElem, binCenters_getElem _ h1, binCenters_getElem _ h2]
  push_cast
  linarith

/-- C8: the Q-value is non-negative for every empirical density and every
fitted density, because it is the trapezoidal integral of the non-negative
integrand `|empirical - fitted| * |centre|^2` over the 500 bin centres,
which are strictly increasing and lie inside `[-15, 15]`. -/
theorem Q_value_nonneg (zDensity zIdeal : List ℚ) :
    0 ≤ Q_value zDensity zIdeal ∧
    binCenters.length = 500 ∧
    List.Chain' (· < ·) binCenters ∧
    ∀ c ∈ binCenters, -15 ≤ c ∧ c ≤ 15 := by
  refine ⟨?_, binCenters_length, binCenters_chain, ?_⟩
  · refine npTrapz_nonneg _ binCenters (fun v hv => ?_)
      (List.Chain'.imp (fun a b h => le_of_lt h) binCenters_chain)
    obtain ⟨a, b, c, rfl⟩ := zip3With_mem _ _ _ _ _ hv
    positivity
  · intro c hc
    obtain ⟨i, hi, rfl⟩ := List.mem_iff_getElem.mp hc
    have hi' : i < 500 := by rw [binCenters_length] at hi; exact hi
    rw [binCenters_getElem _ hi]
    have hc1 : (i : ℚ) ≤ 499 := by exact_mod_cast Nat.le_of_lt_succ hi'
    have hc0 : (0 : ℚ) ≤ (i : ℚ) := by positivity
    constructor <;> nlinarith

theorem binaryFillhole_all_zero (b : List ℕ) (hb : ∀ v ∈ b, v = 0) :
    binaryFillhole b = b := by
  have hgetD : ∀ j, j < b.length → b.getD j 0 = 0 := by
    intro j hj
    rw [List.getD_eq_getElem _ _ hj]
    exact hb _ (List.getElem_mem hj)
  apply List.ext_getElem
  · simp [binaryFillhole]
  · intro j h1 h2
    have hj : j < b.length := by simpa [binaryFillhole] using h2
    rw [List.getElem_of_eq (show binaryFillhole b = (List.range b.length).map _ from rfl) h1]
    rw [List.getElem_map, List.getElem_range]
    have hz := hgetD j hj
    rw [hz]
    have hnot : ¬ (1 ∈ b.take j ∧ 1 ∈ b.drop (j + 1)) := by
      rintro ⟨h1', _⟩
      have := hb 1 (List.mem_of_mem_take h1')
      omega
    rw [if_neg (by omega), if_neg hnot]
    rw [List.getD_eq_getElem _ _ hj] at hz
    omega

theorem labelRuns_all_zero (b : List ℕ) (hb : ∀ v ∈ b, v = 0) :
    ∀ k inRun, labelRuns b k inRun = b := by
  induction b with
  | nil => intro k inRun; rfl
  | cons v rest ih =>
    intro k inRun
    have hv : v = 0 := hb v (by simp)
    rw [labelRuns, if_neg (by omega)]
    rw [ih (fun w hw => hb w (List.mem_cons_of_mem _ hw)) k false, hv]

theorem foldr_max_all_zero (l : List ℕ) (h : ∀ v ∈ l, v = 0) : l.foldr max 0 = 0 := by
  induction l with
  | nil => rfl
  | cons v rest ih =>
    rw [List.foldr_cons, h v (by simp), ih fun w hw => h w (List.mem_cons_of_mem _ hw)]
    omega

/-- C9: whenever no foreground voxel survives binarisation at the given
threshold (in particular for an all-zero input field), the Probability
Reducer returns the (empty) binarised image unchanged — the
connected-component stage finds no labels, `voxelCounts` is empty and the
early-return branch fires; being a total function, the Reducer raises no
error and its degenerate output is an ordinary value for downstream
consumers. -/
theorem processProbabilityImage_empty (img : List ℚ) (threshold : ℚ)
    (h : ∀ v ∈ binaryThreshold threshold (normalizeProbability img), v = 0) :
    processProbabilityImage img threshold =
      binaryThreshold threshold (normalizeProbability img) := by
  have hfill : binaryFillhole (binaryThreshold threshold (normalizeProbability img)) =
      binaryThreshold threshold (normalizeProbability img) :=
    binaryFillhole_all_zero _ h
  simp only [processProbabilityImage, hfill, connectedComponent1d,
    labelRuns_all_zero _ h, foldr_max_all_zero _ h]
  simp

theorem processProbabilityImage_empty_witness :
    processProbabilityImage [0, 0, 0] 1 =
      binaryThreshold 1 (normalizeProbability [0, 0, 0]) ∧
    binaryThreshold 1 (normalizeProbability [0, 0, 0]) = [0, 0, 0] := by
  have hb : binaryThreshold 1 (normalizeProbability [0, 0, 0]) = [0, 0, 0] := by
    norm_num [binaryThreshold, normalizeProbability, npMax, List.headD]
  refine ⟨processProbabilityImage_empty [0, 0, 0] 1 ?_, hb⟩
  rw [hb]
  intro v hv
  simpa using hv

theorem iarRun_trace_head [DecidableEq α] (cfg : IARConfig) (score : List α → α → ℚ)
    (npStd : List ℚ → ℚ) (pool : List α) (iteration : ℕ) (log : LogState) :
    (iarRun cfg score npStd pool iteration log).2.1.head? = some pool := by
  rw [iarRun]
  repeat (first | rfl | split)

theorem iarRun_trace_length [DecidableEq α] (cfg : IARConfig) (score : List α → α → ℚ)
    (npStd : List ℚ → ℚ) (pool : List α) (iteration : ℕ) (log : LogState) :
    (iarRun cfg score npStd pool iteration log).2.1.length ≤ pool.length + 1 := by
  have H : ∀ (n : ℕ) (pool : List α), pool.length ≤ n → ∀ (it : ℕ) (lg : LogState),
      (iarRun cfg score npStd pool it lg).2.1.length ≤ pool.length + 1 := by
    intro n
    induction n with
    | zero =>
      intro pool hp it lg
      rw [iarRun]
      split
      · simp
      · split
        · simp
        · split
          · rename_i hlt
            exfalso
            omega
          · simp
    | succ n ih =>
      intro pool hp it lg
      rw [iarRun]
      split
      · simp
      · split
        · simp
        · split
          · rename_i hlt
            split
            · simp
            · rw [List.length_cons]
              refine Nat.succ_le_succ (le_trans (ih _ ?_ _ _) ?_) <;> omega
          · simp
  exact H pool.length pool le_rfl iteration log

theorem iarRun_trace_chain [DecidableEq α] (cfg : IARConfig) (score : List α → α → ℚ)
    (npStd : List ℚ → ℚ) (pool : List α) (iteration : ℕ) (log : LogState) :
    List.Chain' (fun p q : List α => q.length < p.length)
      (iarRun cfg score npStd pool iteration log).2.1 := by
  have H : ∀ (n : ℕ) (pool : List α), pool.length ≤ n → ∀ (it : ℕ) (lg : LogState),
      List.Chain' (fun p q : List α => q.length < p.length)
        (iarRun cfg score npStd pool it lg).2.1 := by
    intro n
    induction n with
    | zero =>
      intro pool hp it lg
      rw [iarRun]
      split
      · simp
      · split
        · simp
        · split
          · rename_i hlt
            exfalso
            omega
          · simp
    | succ n ih =>
      intro pool hp it lg
      rw [iarRun]
      split
      · simp
      · split
        · simp
        · split
          · rename_i hlt
            split
            · simp
            · refine List.chain'_cons'.mpr ⟨fun y hy => ?_, ih _ (by omega) _ _⟩
              rw [iarRun_trace_head] at hy
              simp only [Option.mem_def, Option.some.injEq] at hy
              subst hy
              omega
          · simp
  exact H pool.length pool le_rfl iteration log

/-- C1: for every initial pool of size at least 1 (and any scoring oracle,
std oracle, configuration and incoming log state), the Controller
terminates — `iarRun` is total by well-founded recursion on the pool size —
with a recursion trace of at most (initial pool size) recursive re-entries,
and the pool sizes along the trace are strictly decreasing (hence
non-increasing) up to the terminal iteration: the code recurses only under
`len(keepIdList) < len(remainingIdList)`, i.e. only when at least one atlas
was removed. -/
theorem iar_terminates_and_pool_sizes_decrease [DecidableEq α] (cfg : IARConfig)
    (score : List α → α → ℚ) (npStd : List ℚ → ℚ) (pool : List α) (log : LogState)
    (hpool : 1 ≤ pool.length) :
    (iarRun cfg score npStd pool 0 log).2.1.length - 1 ≤ pool.length ∧
    List.Chain' (fun p q : List α => q.length < p.length)
      (iarRun cfg score npStd pool 0 log).2.1 := by
  refine ⟨?_, iarRun_trace_chain cfg score npStd pool 0 log⟩
  have h := iarRun_trace_length cfg score npStd pool 0 log
  omega

theorem iar_terminates_and_pool_sizes_decrease_witness :
    ((iarRun (IARConfig.mk "MAD" "IQR" 1 (3/2) false) (fun (_ : List ℕ) (a : ℕ) => (a : ℚ))
        (fun _ => 0) [0] 0 (LogState.mk false 0 false)).2.1.length - 1 ≤ ([0] : List ℕ).length ∧
    List.Chain' (fun p q : List ℕ => q.length < p.length)
      (iarRun (IARConfig.mk "MAD" "IQR" 1 (3/2) false) (fun (_ : List ℕ) (a : ℕ) => (a : ℚ))
        (fun _ => 0) [0] 0 (LogState.mk false 0 false)).2.1) :=
  iar_terminates_and_pool_sizes_decrease _ _ _ _ _ (by simp)

/-- C7: in an iteration with pool `pool` (so `N = pool.length` Q-values),
the IQR outlier threshold is computed over exactly the first
`max(minBestAtlases, N-3)` entries of the ascending sort of the Q-values
(the best / smallest scores; when the bound exceeds `N` the whole list is
kept), and equals `P75 + N_factor * (P75 - P25)` of that subset; an atlas
is removed — i.e. is in the pool but not in `keepIdList` — iff its Q-value
is strictly above the threshold, so Q-values equal to the threshold are
kept (`accept = result <= outlierLimit`, line 384). -/
theorem iqr_threshold_over_best_and_strict_removal [DecidableEq α] (N_factor : ℚ)
    (npStd : List ℚ → ℚ) (minBestAtlases : ℕ) (score : List α → α → ℚ) (pool : List α) :
    outlierMethodValid "IQR" = true ∧
    outlierLimit "IQR" N_factor npStd minBestAtlases (pool.map (score pool)) =
      npPercentile (bestResults minBestAtlases (pool.map (score pool))) 75 +
        N_factor * (npPercentile (bestResults minBestAtlases (pool.map (score pool))) 75 -
          npPercentile (bestResults minBestAtlases (pool.map (score pool))) 25) ∧
    bestResults minBestAtlases (pool.map (score pool)) =
      (npSort (pool.map (score pool))).take
        (max (minBestAtlases : ℤ) ((pool.length : ℤ) - 3)).toNat ∧
    ∀ outlierLimit : ℚ, ∀ a : α,
      (a ∈ pool ∧ a ∉ iarKeep (score pool) outlierLimit pool) ↔
        (a ∈ pool ∧ outlierLimit < score pool a) := by
  refine ⟨by decide, ?_, ?_, ?_⟩
  · rw [outlierLimit, if_pos (by decide)]
  · rw [bestResults, List.length_map]
  · intro outlierLimit a
    simp only [iarKeep, List.mem_filter, decide_eq_true_eq, not_and, not_le]
    constructor
    · rintro ⟨ha, hnot⟩
      exact ⟨ha, hnot ha⟩
    · rintro ⟨ha, hgt⟩
      exact ⟨ha, fun _ => hgt⟩

/-- C5: a run (entry at iteration 0, nonempty pool) configured with an
unrecognised `zScore` or an unrecognised `outlierMethod` ends in the fatal
configuration exit (`sys.exit()`), returns no atlas set, and its log
contains the header row and zero iteration rows: the `zScore` check fires
inside the scoring loop and the `outlierMethod` check fires before the
line-376 log write, so neither path writes an iteration row. -/
theorem iar_config_error_fatal [DecidableEq α] (cfg : IARConfig) (score : List α → α → ℚ)
    (npStd : List ℚ → ℚ) (pool : List α) (log : LogState)
    (hpool : pool ≠ [])
    (hbad : zScoreValid cfg.zScore = false ∨ outlierMethodValid cfg.outlierMethod = false) :
    ∃ e, iarRun cfg score npStd pool 0 log =
      (LogState.mk true 0 true, [pool], Except.error e) := by
  rw [iarRun]
  by_cases hz : zScoreValid cfg.zScore = true
  · rcases hbad with hzf | hof
    · rw [hz] at hzf
      cases hzf
    · refine ⟨IARExit.configError "outlierMethod must be one of: IQR, STD", ?_⟩
      rw [if_neg (by simp [hz]), if_pos (by simp [hof])]
      rfl
  · refine ⟨IARExit.configError "zScore must be one of: MAD, STD", ?_⟩
    rw [if_pos ⟨hpool, hz⟩]
    rfl

theorem iar_config_error_fatal_witness :
    ∃ e, iarRun (IARConfig.mk "MAD" "bogus" 10 (3/2) false)
        (fun (_ : List ℕ) (_ : ℕ) => (0 : ℚ)) (fun _ => 0) [0] 0
        (LogState.mk false 0 false) =
      (LogState.mk true 0 true, [[0]], Except.error e) :=
  iar_config_error_fatal _ _ _ _ _ (by simp) (Or.inr (by decide))

theorem iarLogEntry_open (iteration : ℕ) (log : LogState)
    (h : iteration = 0 ∨ log.handleOpen = true) : (iarLogEntry iteration log).handleOpen = true := by
  rcases h with h | h
  · subst h
    rfl
  · rw [iarLogEntry]
    split
    · rfl
    · exact h

theorem iarRun_closed_of_ok [DecidableEq α] (cfg : IARConfig) (score : List α → α → ℚ)
    (npStd : List ℚ → ℚ) (hss : cfg.singleStep = false) :
    ∀ (n : ℕ) (pool : List α), pool.length ≤ n → ∀ (it : ℕ) (lg : LogState) (r : List α),
      (iarRun cfg score npStd pool it lg).2.2 = Except.ok r →
      (iarRun cfg score npStd pool it lg).1.handleOpen = false := by
  intro n
  induction n with
  | zero =>
    intro pool hp it lg r hr
    rw [iarRun] at hr ⊢
    split at hr
    · simp at hr
    · rename_i h1
      split at hr
      · simp at hr
      · rename_i h2
        split at hr
        · rename_i hlt
          exfalso
          omega
        · rename_i hge
          rw [if_neg h1, if_neg h2, dif_neg hge]
          rfl
  | succ n ih =>
    intro pool hp it lg r hr
    rw [iarRun] at hr ⊢
    split at hr
    · simp at hr
    · rename_i h1
      split at hr
      · simp at hr
      · rename_i h2
        split at hr
        · rename_i hlt
          split at hr
          · rename_i hsst
            rw [hss] at hsst
            cases hsst
          · rename_i hssf
            rw [if_neg h1, if_neg h2, dif_pos hlt, if_neg hssf]
            exact ih _ (by omega) _ _ r hr
        · rename_i hge
          rw [if_neg h1, if_neg h2, dif_neg hge]
          rfl

theorem iarRun_open_of_error [DecidableEq α] (cfg : IARConfig) (score : List α → α → ℚ)
    (npStd : List ℚ → ℚ) :
    ∀ (n : ℕ) (pool : List α), pool.length ≤ n → ∀ (it : ℕ) (lg : LogState),
      (it = 0 ∨ lg.handleOpen = true) → ∀ e : IARExit,
      (iarRun cfg score npStd pool it lg).2.2 = Except.error e →
      (iarRun cfg score npStd pool it lg).1.handleOpen = true := by
  intro n
  induction n with
  | zero =>
    intro pool hp it lg hpre e hr
    rw [iarRun] at hr ⊢
    split at hr
    · rename_i h1
      rw [if_pos h1]
      exact iarLogEntry_open it lg hpre
    · rename_i h1
      split at hr
      · rename_i h2
        rw [if_neg h1, if_pos h2]
        exact iarLogEntry_open it lg hpre
      · rename_i h2
        split at hr
        · rename_i hlt
          exfalso
          omega
        · simp at hr
  | succ n ih =>
    intro pool hp it lg hpre e hr
    rw [iarRun] at hr ⊢
    split at hr
    · rename_i h1
      rw [if_pos h1]
      exact iarLogEntry_open it lg hpre
    · rename_i h1
      split at hr
      · rename_i h2
        rw [if_neg h1, if_pos h2]
        exact iarLogEntry_open it lg hpre
      · rename_i h2
        split at hr
        · rename_i hlt
          split at hr
          · simp at hr
          · rename_i hssf
            rw [if_neg h1, if_neg h2, dif_pos hlt, if_neg hssf]
            refine ih _ (by omega) _ _ (Or.inr ?_) e hr
            exact iarLogEntry_open it lg hpre
        · simp at hr

theorem iarRun_singleStep_open [DecidableEq α] (cfg : IARConfig) (score : List α → α → ℚ)
    (npStd : List ℚ → ℚ) (pool : List α) (lg : LogState)
    (hss : cfg.singleStep = true) (r : List α)
    (hr : (iarRun cfg score npStd pool 0 lg).2.2 = Except.ok r)
    (hlen : r.length < pool.length) :
    (iarRun cfg score npStd pool 0 lg).1.handleOpen = true := by
  rw [iarRun] at hr ⊢
  split at hr
  · simp at hr
  · rename_i h1
    split at hr
    · simp at hr
    · rename_i h2
      split at hr
      · rename_i hlt
        rw [if_neg h1, if_neg h2, dif_pos hlt, if_pos hss]
        rfl
      · rename_i hge
        exfalso
        simp at hr
        subst hr
        omega

/-- C6 amended: the log handle is closed exactly on the terminal
no-removal path.  At iteration-0 entry: (1) in the recursive mode
(`singleStep = false`) every run that returns an atlas set ends with the
handle closed (the sole `Except.ok` producer is line 405's
close-and-return); (2) every run that ends in a fatal configuration exit
leaves the handle open (`sys.exit()` does not close it); (3) in
`singleStep` mode a run that returns a strictly smaller atlas set took the
line-399 early return, which also leaves the handle open.  The original
claim — closed on all three ending paths — fails on (2) and (3). -/
theorem iar_log_closed_only_on_terminal_path [DecidableEq α] (cfg : IARConfig)
    (score : List α → α → ℚ) (npStd : List ℚ → ℚ) (pool : List α) (log : LogState) :
    (cfg.singleStep = false → ∀ r, (iarRun cfg score npStd pool 0 log).2.2 = Except.ok r →
        (iarRun cfg score npStd pool 0 log).1.handleOpen = false) ∧
    (∀ e, (iarRun cfg score npStd pool 0 log).2.2 = Except.error e →
        (iarRun cfg score npStd pool 0 log).1.handleOpen = true) ∧
    (cfg.singleStep = true → ∀ r, (iarRun cfg score npStd pool 0 log).2.2 = Except.ok r →
        r.length < pool.length → (iarRun cfg score npStd pool 0 log).1.handleOpen = true) :=
  ⟨fun hss r hr => iarRun_closed_of_ok cfg score npStd hss pool.length pool le_rfl 0 log r hr,
   fun e he => iarRun_open_of_error cfg score npStd pool.length pool le_rfl 0 log (Or.inl rfl) e he,
   fun hss r hr hlen => iarRun_singleStep_open cfg score npStd pool log hss r hr hlen⟩

/-- C6 counterexample: a concrete `singleStep` run (two atlases, one with a
large Q-value, so one removal happens) ends the run via the line-399 early
return with the log handle still open (`handleOpen = true`), refuting the
claim that the handle is closed on the single-step early-return path. -/
theorem iar_singleStep_run_leaves_handle_open :
    iarRun (IARConfig.mk "MAD" "IQR" 1 (3/2) true)
        (fun (_ : List ℕ) (a : ℕ) => 100 * (a : ℚ)) (fun _ => 0) [0, 1] 0
        (LogState.mk false 0 false) =
      (LogState.mk true 1 true, [[0, 1]], Except.ok [0]) := by
  have hmap : List.map ((fun (_ : List ℕ) (a : ℕ) => 100 * (a : ℚ)) [0, 1]) [0, 1]
      = [0, 100] := by norm_num
  have hbest : bestResults 1 [0, 100] = [0] := by
    rw [bestResults]
    have hmax : max ((1 : ℕ) : ℤ) ((([(0 : ℚ), 100].length : ℕ) : ℤ) - 3) = 1 := by
      norm_num
    rw [hmax]
    norm_num [npSort, List.insertionSort, List.orderedInsert]
  have hP : ∀ q : ℚ, npPercentile [0] q = 0 := by
    intro q
    rw [npPercentile]
    norm_num [npSort, List.insertionSort, List.orderedInsert, List.getD]
  have hlim : outlierLimit "IQR" (3/2) (fun _ => 0) 1 [0, 100] = 0 := by
    rw [outlierLimit, if_pos (by decide)]
    rw [hbest, hP 75, hP 25]
    norm_num
  have hkp : iarKeepPool (IARConfig.mk "MAD" "IQR" 1 (3/2) true)
      (fun (_ : List ℕ) (a : ℕ) => 100 * (a : ℚ)) (fun _ => 0) [0, 1] = [0] := by
    rw [iarKeepPool, iarLimit]
    simp only [hmap, hlim]
    rw [iarKeep]
    norm_num [List.filter]
  rw [iarRun, if_neg (by decide), if_neg (by decide),
    dif_pos (by rw [hkp]; decide), if_pos rfl, hkp]
  rfl

theorem iar_log_closed_only_on_terminal_path_witness :
    (iarRun (IARConfig.mk "MAD" "IQR" 1 (3/2) false) (fun (_ : List ℕ) (_ : ℕ) => (0 : ℚ))
        (fun _ => 0) [0] 0 (LogState.mk false 0 false)).1.handleOpen = false := by
  have hmap : List.map ((fun (_ : List ℕ) (_ : ℕ) => (0 : ℚ)) [0]) [0] = [(0 : ℚ)] := by
    norm_num
  have hbest : bestResults 1 [(0 : ℚ)] = [0] := by
    rw [bestResults]
    have hmax : max ((1 : ℕ) : ℤ) ((([(0 : ℚ)].length : ℕ) : ℤ) - 3) = 1 := by
      norm_num
    rw [hmax]
    norm_num [npSort, List.insertionSort, List.orderedInsert]
  have hP : ∀ q : ℚ, npPercentile [0] q = 0 := by
    intro q
    rw [npPercentile]
    norm_num [npSort, List.insertionSort, List.orderedInsert, List.getD]
  have hlim : outlierLimit "IQR" (3/2) (fun _ => 0) 1 [(0 : ℚ)] = 0 := by
    rw [outlierLimit, if_pos (by decide)]
    rw [hbest, hP 75, hP 25]
    norm_num
  have hkp : iarKeepPool (IARConfig.mk "MAD" "IQR" 1 (3/2) false)
      (fun (_ : List ℕ) (_ : ℕ) => (0 : ℚ)) (fun _ => 0) [0] = [0] := by
    rw [iarKeepPool, iarLimit]
    simp only [hmap, hlim]
    rw [iarKeep]
    norm_num [List.filter]
  have hrun : (iarRun (IARConfig.mk "MAD" "IQR" 1 (3/2) false)
      (fun (_ : List ℕ) (_ : ℕ) => (0 : ℚ)) (fun _ => 0) [0] 0
      (LogState.mk false 0 false)).2.2 = Except.ok [0] := by
    rw [iarRun, if_neg (by decide), if_neg (by decide), dif_neg (by rw [hkp]; decide)]
  exact (iar_log_closed_only_on_terminal_path _ _ _ _ _).1 rfl [0] hrun

theorem iqr_threshold_over_best_and_strict_removal_witness :
    (outlierMethodValid "IQR" = true ∧
    outlierLimit "IQR" (3/2) (fun _ => 0) 1 ([0, 1].map ((fun (_ : List ℕ) (a : ℕ) => (a : ℚ)) [0, 1])) =
      npPercentile (bestResults 1 ([0, 1].map ((fun (_ : List ℕ) (a : ℕ) => (a : ℚ)) [0, 1]))) 75 +
        (3/2) * (npPercentile (bestResults 1 ([0, 1].map ((fun (_ : List ℕ) (a : ℕ) => (a : ℚ)) [0, 1]))) 75 -
          npPercentile (bestResults 1 ([0, 1].map ((fun (_ : List ℕ) (a : ℕ) => (a : ℚ)) [0, 1]))) 25) ∧
    bestResults 1 ([0, 1].map ((fun (_ : List ℕ) (a : ℕ) => (a : ℚ)) [0, 1])) =
      (npSort ([0, 1].map ((fun (_ : List ℕ) (a : ℕ) => (a : ℚ)) [0, 1]))).take
        (max ((1 : ℕ) : ℤ) ((([0, 1] : List ℕ).length : ℤ) - 3)).toNat ∧
    ∀ outlierLimit : ℚ, ∀ a : ℕ,
      (a ∈ [0, 1] ∧ a ∉ iarKeep ((fun (_ : List ℕ) (a : ℕ) => (a : ℚ)) [0, 1]) outlierLimit [0, 1]) ↔
        (a ∈ [0, 1] ∧ outlierLimit < (fun (_ : List ℕ) (a : ℕ) => (a : ℚ)) [0, 1] a)) :=
  iqr_threshold_over_best_and_strict_removal (3/2) (fun _ => 0) 1
    (fun (_ : List ℕ) (a : ℕ) => (a : ℚ)) [0, 1]
